import Mathlib

/-!
Verification of the pyswarms optimization backend.

Scalars are modelled as rationals (`ℚ`); `numpy` arrays become lists, a
matrix a list of rows.  Fallible code returns `Except`.  Each definition
is a shallow embedding of the corresponding Python function in
`pyswarms/backend/operators.py` or `pyswarms/base/base.py`.
-/

namespace Pyswarms

/-- The `options` dictionary of hyperparameters, keys c1, c2, w. -/
structure Options where
  c1 : ℚ
  c2 : ℚ
  w : ℚ
deriving Repr, DecidableEq

/-- Modelled from the spec: the `Swarm` record of
`pyswarms.backend.swarms` (module not under src/).  Per §3 of the spec it
holds the position matrix, velocity matrix, current costs, personal bests
and the neighbourhood best. -/
structure Swarm where
  position : List (List ℚ)
  velocity : List (List ℚ)
  current_cost : List ℚ
  pbest_pos : List (List ℚ)
  pbest_cost : List ℚ
  best_pos : List ℚ
  best_cost : ℚ
  options : Options
deriving Repr, DecidableEq

/-- Modelled from the spec: `swarm.dimensions` of the missing swarms
module, the number of columns D of the `(N, D)` position matrix. -/
def Swarm.dimensions (s : Swarm) : Nat := (s.position.headD []).length

/-- Elementwise ternary zip, used to express `np.where(mask, A, B)`
with all three arguments of equal shape. -/
def zipWith3 (f : α → β → γ → δ) : List α → List β → List γ → List δ
  | a :: as, b :: bs, c :: cs => f a b c :: zipWith3 f as bs cs
  | _, _, _ => []

/-- `compute_pbest` from `pyswarms/backend/operators.py`: build the
boolean mask `current_cost < pbest_cost`, repeat it across the D columns,
and apply `np.where(~mask, old, new)` to positions and costs. -/
def compute_pbest (s : Swarm) : List (List ℚ) × List ℚ :=
  let dimensions := s.dimensions
  let mask_cost : List Bool := List.zipWith (fun c p => decide (c < p)) s.current_cost s.pbest_cost
  let mask_pos : List (List Bool) := mask_cost.map (fun m => List.replicate dimensions m)
  let new_pbest_pos :=
    zipWith3 (fun mrow pbrow posrow =>
      zipWith3 (fun m pb pos => if !m then pb else pos) mrow pbrow posrow)
      mask_pos s.pbest_pos s.position
  let new_pbest_cost :=
    zipWith3 (fun m pb c => if !m then pb else c) mask_cost s.pbest_cost s.current_cost
  (new_pbest_pos, new_pbest_cost)

theorem zipWith3_get? (f : α → β → γ → δ) :
    ∀ (as : List α) (bs : List β) (cs : List γ) (i : Nat),
      (zipWith3 f as bs cs).get? i =
        match as.get? i, bs.get? i, cs.get? i with
        | some a, some b, some c => some (f a b c)
        | _, _, _ => none
  | [], bs, cs, i => by cases i <;> simp [zipWith3]
  | _ :: _, [], cs, i => by cases i <;> simp [zipWith3]
  | _ :: _, _ :: _, [], i => by cases i <;> simp [zipWith3]
  | a :: as, b :: bs, c :: cs, 0 => rfl
  | a :: as, b :: bs, c :: cs, i + 1 => zipWith3_get? f as bs cs i

theorem zipWith_get? (f : α → β → γ) :
    ∀ (as : List α) (bs : List β) (i : Nat),
      (List.zipWith f as bs).get? i =
        match as.get? i, bs.get? i with
        | some a, some b => some (f a b)
        | _, _ => none
  | [], bs, i => by cases i <;> simp
  | _ :: _, [], i => by cases i <;> simp
  | a :: as, b :: bs, 0 => rfl
  | a :: as, b :: bs, i + 1 => zipWith_get? f as bs i

/-- A row-level `np.where` with a constant mask row selects one of the
two rows wholesale, provided the shapes agree. -/
theorem zipWith3_replicate_select (m : Bool) :
    ∀ (d : Nat) (arow brow : List ℚ), arow.length = d → brow.length = d →
      zipWith3 (fun m pb pos => if !m then pb else pos) (List.replicate d m) arow brow =
        if m then brow else arow
  | 0, [], [], _, _ => by cases m <;> rfl
  | d + 1, a :: arow, b :: brow, ha, hb => by
    have ih := zipWith3_replicate_select m d arow brow
      (by simpa using ha) (by simpa using hb)
    cases m <;> simp_all [zipWith3, List.replicate]

/-- A concrete two-particle, two-dimensional swarm used to instantiate
hypotheses of the theorems below. -/
def exSwarm : Swarm where
  position := [[1, 2], [3, 4]]
  velocity := [[5, 6], [7, 8]]
  current_cost := [5, 1]
  pbest_pos := [[0, 0], [9, 9]]
  pbest_cost := [2, 3]
  best_pos := [0, 0]
  best_cost := 2
  options := ⟨1, 1, 1⟩

/-- C1: for a shape-consistent swarm, `compute_pbest` returns, per
particle, the minimum of the old personal-best cost and the current cost,
and the position achieving it; strict less-than, so ties keep the prior
personal best. -/
theorem compute_pbest_correct (s : Swarm) (N D : Nat)
    (hcc : s.current_cost.length = N) (hpc : s.pbest_cost.length = N)
    (hpos : s.position.length = N) (hppos : s.pbest_pos.length = N)
    (hdim : s.dimensions = D)
    (hprow : ∀ r ∈ s.pbest_pos, r.length = D)
    (hrow : ∀ r ∈ s.position, r.length = D)
    (i : Nat) (hi : i < N) :
    (compute_pbest s).2.get? i =
        some (min (s.pbest_cost.getD i 0) (s.current_cost.getD i 0)) ∧
    (compute_pbest s).1.get? i =
        some (if s.current_cost.getD i 0 < s.pbest_cost.getD i 0
              then s.position.getD i [] else s.pbest_pos.getD i []) := by
  have hci : i < s.current_cost.length := by omega
  have hpi : i < s.pbest_cost.length := by omega
  have hxi : i < s.position.length := by omega
  have hqi : i < s.pbest_pos.length := by omega
  have h1 : s.current_cost.get? i = some (s.current_cost.getD i 0) := by
    rw [List.get?_eq_get hci, List.getD_eq_getElem _ _ hci]; rfl
  have h2 : s.pbest_cost.get? i = some (s.pbest_cost.getD i 0) := by
    rw [List.get?_eq_get hpi, List.getD_eq_getElem _ _ hpi]; rfl
  have h3 : s.position.get? i = some (s.position.getD i []) := by
    rw [List.get?_eq_get hxi, List.getD_eq_getElem _ _ hxi]; rfl
  have h4 : s.pbest_pos.get? i = some (s.pbest_pos.getD i []) := by
    rw [List.get?_eq_get hqi, List.getD_eq_getElem _ _ hqi]; rfl
  have hlen3 : (s.position.getD i []).length = D := by
    apply hrow
    rw [List.getD_eq_getElem _ _ hxi]
    exact List.getElem_mem hxi
  have hlen4 : (s.pbest_pos.getD i []).length = D := by
    apply hprow
    rw [List.getD_eq_getElem _ _ hqi]
    exact List.getElem_mem hqi
  constructor
  · show (zipWith3 _ (List.zipWith _ s.current_cost s.pbest_cost)
        s.pbest_cost s.current_cost).get? i = _
    rw [zipWith3_get?, zipWith_get?, h1, h2]
    by_cases hlt : s.current_cost.getD i 0 < s.pbest_cost.getD i 0
    · have hnle : ¬ s.pbest_cost.getD i 0 ≤ s.current_cost.getD i 0 := not_le.mpr hlt
      simp [hlt, min_def, hnle]
    · have hle : s.pbest_cost.getD i 0 ≤ s.current_cost.getD i 0 := le_of_not_lt hlt
      simp [hlt, min_def, hle]
  · show (zipWith3 _ ((List.zipWith (fun c p => decide (c < p))
        s.current_cost s.pbest_cost).map (fun m => List.replicate s.dimensions m))
        s.pbest_pos s.position).get? i = _
    rw [zipWith3_get?, List.get?_eq_getElem?, List.getElem?_map,
      ← List.get?_eq_getElem?, zipWith_get?, h1, h2, h3, h4]
    show some (zipWith3 _ (List.replicate s.dimensions _) _ _) = _
    rw [hdim, zipWith3_replicate_select _ D _ _ hlen4 hlen3]
    by_cases hlt : s.current_cost.getD i 0 < s.pbest_cost.getD i 0
    · simp [hlt]
    · simp [hlt]

/-- C1 witness: the theorem instantiated on a concrete swarm. -/
theorem compute_pbest_correct_witness :
    (compute_pbest exSwarm).2.get? 1 =
        some (min (exSwarm.pbest_cost.getD 1 0) (exSwarm.current_cost.getD 1 0)) ∧
    (compute_pbest exSwarm).1.get? 1 =
        some (if exSwarm.current_cost.getD 1 0 < exSwarm.pbest_cost.getD 1 0
              then exSwarm.position.getD 1 [] else exSwarm.pbest_pos.getD 1 []) :=
  compute_pbest_correct exSwarm 2 2 rfl rfl rfl rfl rfl
    (by decide) (by decide) 1 (by decide)

/-- Bounds: a pair (lower, upper) of per-dimension vectors. -/
def Bounds : Type := List ℚ × List ℚ

/-- A boundary handler maps a tentative position matrix and bounds to a
corrected position matrix (the `__call__` interface of
`pyswarms.backend.handlers.BoundaryHandler`, module not under src/). -/
def BoundaryHandler : Type := List (List ℚ) → Bounds → List (List ℚ)

/-- Elementwise sum of two `(N, D)` matrices, `position + velocity`. -/
def matAdd (a b : List (List ℚ)) : List (List ℚ) :=
  List.zipWith (List.zipWith (· + ·)) a b

/-- `compute_position` from `pyswarms/backend/operators.py`:
`temp_position = swarm.position.copy() + swarm.velocity`; when bounds are
given the boundary handler is applied to it; the result is returned. -/
def compute_position (s : Swarm) (bounds : Option Bounds) (bh : BoundaryHandler) :
    List (List ℚ) :=
  let temp_position := matAdd s.position s.velocity
  let temp_position := match bounds with
    | none => temp_position
    | some b => bh temp_position b
  let position := temp_position
  position

/-- State-passing embedding of `compute_pbest`: the Python body contains
no assignment to a `swarm` field, so the threaded swarm leaves the call
rebuilt from exactly the fields it entered with. -/
def compute_pbest_st (s : Swarm) : (List (List ℚ) × List ℚ) × Swarm :=
  (compute_pbest s,
    { position := s.position, velocity := s.velocity,
      current_cost := s.current_cost, pbest_pos := s.pbest_pos,
      pbest_cost := s.pbest_cost, best_pos := s.best_pos,
      best_cost := s.best_cost, options := s.options })

/-- State-passing embedding of `compute_position`; the body reads
`swarm.position` (through `.copy()`) and `swarm.velocity` and assigns no
field of `swarm`. -/
def compute_position_st (s : Swarm) (bounds : Option Bounds) (bh : BoundaryHandler) :
    List (List ℚ) × Swarm :=
  (compute_position s bounds bh,
    { position := s.position, velocity := s.velocity,
      current_cost := s.current_cost, pbest_pos := s.pbest_pos,
      pbest_cost := s.pbest_cost, best_pos := s.best_pos,
      best_cost := s.best_cost, options := s.options })

/-- C3: `compute_position` returns `position + velocity` when no bounds
are given, and the boundary handler applied to that sum when bounds are
supplied; nothing else is applied after the sum. -/
theorem compute_position_correct (s : Swarm) (bh : BoundaryHandler) :
    compute_position s none bh = matAdd s.position s.velocity ∧
    ∀ b : Bounds, compute_position s (some b) bh = bh (matAdd s.position s.velocity) b :=
  ⟨rfl, fun _ => rfl⟩

/-- C4: `compute_pbest` and `compute_position` (unbounded) leave every
field of the swarm unchanged: the state threaded through the embedded
bodies comes out equal to the state that went in. -/
theorem operators_do_not_mutate_swarm (s : Swarm) (bh : BoundaryHandler) :
    (compute_pbest_st s).2 = s ∧ (compute_position_st s none bh).2 = s :=
  ⟨rfl, rfl⟩

/-- Split `xs` into consecutive blocks with the given sizes. -/
def splitSizes : List α → List Nat → List (List α)
  | _, [] => []
  | xs, n :: ns => xs.take n :: splitSizes (xs.drop n) ns

/-- The block sizes produced by `np.array_split` on a length-`n` array
with `p` sections: `n % p` blocks of size `n / p + 1` followed by
blocks of size `n / p`. -/
def splitSizesOf (n p : Nat) : List Nat :=
  List.replicate (n % p) (n / p + 1) ++ List.replicate (p - n % p) (n / p)

/-- `np.array_split(xs, p)`: `p` contiguous row-blocks; when `p` does
not divide the length the first `length % p` blocks get one extra row. -/
def array_split (xs : List α) (p : Nat) : List (List α) :=
  splitSizes xs (splitSizesOf xs.length p)

/-- `compute_objective_function` from `pyswarms/backend/operators.py`:
sequential mode (no pool) applies the objective to the whole position
matrix; with a pool of `p` worker processes the matrix is split with
`np.array_split(position, p)`, the objective is mapped over the blocks
and the per-block results are concatenated. -/
def compute_objective_function (s : Swarm)
    (objective_func : List (List ℚ) → List ℚ) (pool : Option Nat) : List ℚ :=
  match pool with
  | none => objective_func s.position
  | some p => ((array_split s.position p).map objective_func).flatten

/-- Fallible embedding of `compute_objective_function`: the user
objective may raise, modelled by `Except.error`.  The evaluator installs
no handler; in parallel mode `Pool.map` re-raises a worker's exception,
modelled by `mapM` over the blocks. -/
def compute_objective_function_exc (s : Swarm)
    (objective_func : List (List ℚ) → Except String (List ℚ))
    (pool : Option Nat) : Except String (List ℚ) :=
  match pool with
  | none => objective_func s.position
  | some p => do
      let results ← (array_split s.position p).mapM objective_func
      return results.flatten

theorem splitSizesOf_sum (n p : Nat) (hp : 0 < p) : (splitSizesOf n p).sum = n := by
  have key : ∀ r l P : Nat, r ≤ P → P * l + r = n → r * (l + 1) + (P - r) * l = n := by
    intro r l P hrP hn
    have hmul : r * (l + 1) = r * l + r := by ring
    rw [hmul, Nat.sub_mul]
    have h3 : r * l ≤ P * l := Nat.mul_le_mul_right _ hrP
    revert h3 hn
    generalize r * l = A
    generalize P * l = B
    intro h3 hn
    omega
  unfold splitSizesOf
  rw [List.sum_append, List.sum_replicate, List.sum_replicate, smul_eq_mul, smul_eq_mul]
  exact key (n % p) (n / p) p (le_of_lt (Nat.mod_lt n hp)) (Nat.div_add_mod n p)

theorem splitSizes_flatten :
    ∀ (ns : List Nat) (xs : List α), (splitSizes xs ns).flatten = xs.take ns.sum
  | [], xs => by simp [splitSizes]
  | n :: ns, xs => by
    simp only [splitSizes, List.flatten_cons, splitSizes_flatten ns (xs.drop n),
      List.sum_cons]
    rw [List.take_add]

theorem array_split_flatten (xs : List α) (p : Nat) (hp : 0 < p) :
    (array_split xs p).flatten = xs := by
  rw [array_split, splitSizes_flatten, splitSizesOf_sum _ _ hp, List.take_length]

/-- C2: for an objective obeying the vectorized contract (on any
row-block it returns that block's per-row costs) and any worker count
`p > 0`, parallel evaluation equals sequential evaluation elementwise. -/
theorem compute_objective_function_parallel_eq (s : Swarm)
    (f : List (List ℚ) → List ℚ) (g : List ℚ → ℚ)
    (hf : ∀ m : List (List ℚ), f m = m.map g) (p : Nat) (hp : 0 < p) :
    compute_objective_function s f (some p) = compute_objective_function s f none := by
  show ((array_split s.position p).map f).flatten = f s.position
  have hmap : (array_split s.position p).map f =
      (array_split s.position p).map (List.map g) :=
    List.map_congr_left (fun b _ => hf b)
  rw [hmap, ← List.map_flatten, array_split_flatten _ _ hp, ← hf]

/-- C2 witness: a three-worker pool on the two-particle swarm (empty
block included) agrees with the sequential evaluation. -/
theorem compute_objective_function_parallel_eq_witness :
    compute_objective_function exSwarm (fun m => m.map List.sum) (some 3) =
      compute_objective_function exSwarm (fun m => m.map List.sum) none :=
  compute_objective_function_parallel_eq exSwarm _ List.sum (fun _ => rfl) 3 (by decide)

/-- C10: sequential mode returns exactly the objective's value with no
validation of its shape: any result list is passed through unchanged,
without raising. -/
theorem compute_objective_function_no_validation (s : Swarm)
    (f : List (List ℚ) → List ℚ) :
    compute_objective_function s f none = f s.position ∧
    ∀ v : List ℚ, compute_objective_function s (fun _ => v) none = v :=
  ⟨rfl, fun _ => rfl⟩

theorem mapM_error_of_earlier_ok {α β : Type} (f : α → Except String β)
    (e : String) :
    ∀ (l1 : List α) (b : α) (l2 : List α) (vs : List β),
      l1.mapM f = Except.ok vs → f b = Except.error e →
      (l1 ++ b :: l2).mapM f = Except.error e
  | [], b, l2, vs, _, hb => by
    rw [List.nil_append, List.mapM_cons, hb]
    rfl
  | a :: l1, b, l2, vs, h1, hb => by
    rw [List.cons_append, List.mapM_cons]
    rw [List.mapM_cons] at h1
    cases hfa : f a with
    | error e2 =>
      rw [hfa] at h1
      exact absurd h1 (fun h => by cases h)
    | ok x =>
      rw [hfa] at h1
      replace h1 : (l1.mapM f >>= fun xs => pure (x :: xs)) = Except.ok vs := h1
      cases hml : l1.mapM f with
      | error e2 =>
        rw [hml] at h1
        exact absurd h1 (fun h => by cases h)
      | ok ys =>
        rw [mapM_error_of_earlier_ok f e l1 b l2 ys hml hb]
        rfl

/-- C5: an error raised by the user objective is not caught by
`compute_objective_function`: sequentially it is returned as-is, and in
parallel mode a failing block (all earlier blocks having succeeded)
makes the whole evaluation return that error, with no cost vector. -/
theorem objective_error_propagates (s : Swarm)
    (f : List (List ℚ) → Except String (List ℚ)) (e : String) :
    (f s.position = Except.error e →
      compute_objective_function_exc s f none = Except.error e) ∧
    (∀ (p : Nat) (bs1 : List (List (List ℚ))) (b : List (List ℚ))
        (bs2 : List (List (List ℚ))) (vs : List (List ℚ)),
      array_split s.position p = bs1 ++ b :: bs2 →
      bs1.mapM f = Except.ok vs → f b = Except.error e →
      compute_objective_function_exc s f (some p) = Except.error e) := by
  constructor
  · intro h
    show f s.position = Except.error e
    exact h
  · intro p bs1 b bs2 vs hsplit h1 hb
    show ((array_split s.position p).mapM f >>= fun rs => pure rs.flatten) =
      Except.error e
    rw [hsplit, mapM_error_of_earlier_ok f e bs1 b bs2 vs h1 hb]
    rfl

/-- C5 witness: a constantly-raising objective propagates its error in
both sequential mode and one-worker parallel mode on a concrete swarm. -/
theorem objective_error_propagates_witness :
    compute_objective_function_exc exSwarm (fun _ => Except.error "boom") none =
      Except.error "boom" ∧
    compute_objective_function_exc exSwarm (fun _ => Except.error "boom") (some 1) =
      Except.error "boom" := by
  have h := objective_error_propagates exSwarm (fun _ => Except.error "boom") "boom"
  exact ⟨h.1 rfl, h.2 1 [] exSwarm.position [] [] (by decide) rfl rfl⟩

theorem splitSizes_length :
    ∀ (ns : List Nat) (xs : List α), (splitSizes xs ns).length = ns.length
  | [], _ => rfl
  | _ :: ns, xs => by
    simp only [splitSizes, List.length_cons, splitSizes_length ns (xs.drop _)]

theorem splitSizes_map_length :
    ∀ (ns : List Nat) (xs : List α), ns.sum ≤ xs.length →
      (splitSizes xs ns).map List.length = ns
  | [], _, _ => rfl
  | n :: ns, xs, h => by
    rw [List.sum_cons] at h
    simp only [splitSizes, List.map_cons]
    rw [List.length_take, Nat.min_eq_left (by omega)]
    rw [splitSizes_map_length ns (xs.drop n) (by rw [List.length_drop]; omega)]

theorem splitSizesOf_length (n p : Nat) (hp : 0 < p) :
    (splitSizesOf n p).length = p := by
  have := Nat.mod_lt n hp
  simp [splitSizesOf]
  omega

theorem splitSizesOf_getD (n p i : Nat) (hi : i < p) :
    (splitSizesOf n p).getD i 0 =
      if i < n % p then n / p + 1 else n / p := by
  unfold splitSizesOf
  by_cases h : i < n % p
  · rw [List.getD_append _ _ _ _ (by simpa using h), if_pos h]
    rw [List.getD_eq_getElem _ _ (by simpa using h), List.getElem_replicate]
  · rw [List.getD_append_right _ _ _ _ (by simpa using not_lt.mp h), if_neg h]
    have hlt : i - n % p < p - n % p := by omega
    rw [show (List.replicate (n % p) (n / p + 1)).length = n % p by simp]
    rw [List.getD_eq_getElem _ _ (by simpa using hlt), List.getElem_replicate]

/-- C9: `np.array_split(position, p)` yields exactly `p` contiguous
blocks, the first `N % p` of size `N / p + 1` and the rest of size
`N / p`; when `p > N` some blocks are empty and the objective is mapped
over those empty position matrices too. -/
theorem array_split_block_structure (s : Swarm) (p : Nat) (hp : 0 < p) :
    (array_split s.position p).length = p ∧
    (∀ i, i < p → ((array_split s.position p).getD i []).length =
        if i < s.position.length % p then s.position.length / p + 1
        else s.position.length / p) ∧
    (s.position.length < p → [] ∈ array_split s.position p) ∧
    (∀ f : List (List ℚ) → List ℚ, s.position.length < p →
        f [] ∈ (array_split s.position p).map f) := by
  have hmap : (array_split s.position p).map List.length =
      splitSizesOf s.position.length p := by
    rw [array_split]
    exact splitSizes_map_length _ _ (by rw [splitSizesOf_sum _ _ hp])
  have hlen : (array_split s.position p).length = p := by
    rw [array_split, splitSizes_length, splitSizesOf_length _ _ hp]
  have hblock : ∀ i, i < p → ((array_split s.position p).getD i []).length =
      if i < s.position.length % p then s.position.length / p + 1
      else s.position.length / p := by
    intro i hi
    calc ((array_split s.position p).getD i []).length
        = ((array_split s.position p).map List.length).getD i
            (List.length ([] : List (List ℚ))) := (List.getD_map _ _ _).symm
      _ = (splitSizesOf s.position.length p).getD i
            (List.length ([] : List (List ℚ))) := by rw [hmap]
      _ = if i < s.position.length % p then s.position.length / p + 1
            else s.position.length / p := splitSizesOf_getD _ _ _ hi
  have hmem : s.position.length < p → [] ∈ array_split s.position p := by
    intro hlt
    have hi : s.position.length < (array_split s.position p).length := by
      rw [hlen]; exact hlt
    have hnil : (array_split s.position p).getD s.position.length [] = [] := by
      apply List.eq_nil_of_length_eq_zero
      rw [hblock s.position.length hlt]
      simp [Nat.mod_eq_of_lt hlt, Nat.div_eq_of_lt hlt]
    rw [← hnil, List.getD_eq_getElem _ _ hi]
    exact List.getElem_mem hi
  exact ⟨hlen, hblock, hmem, fun f hlt => List.mem_map_of_mem f (hmem hlt)⟩

/-- C9 witness: the theorem instantiated with two particles and three
workers, so the last block is empty. -/
theorem array_split_block_structure_witness :
    (array_split exSwarm.position 3).length = 3 ∧
    ((array_split exSwarm.position 3).getD 2 []).length =
      (if 2 < exSwarm.position.length % 3 then exSwarm.position.length / 3 + 1
       else exSwarm.position.length / 3) ∧
    [] ∈ array_split exSwarm.position 3 ∧
    (fun m : List (List ℚ) => m.map List.sum) [] ∈
      (array_split exSwarm.position 3).map (fun m => m.map List.sum) := by
  have h := array_split_block_structure exSwarm 3 (by decide)
  exact ⟨h.1, h.2.1 2 (by decide), h.2.2.1 (by decide), h.2.2.2 _ (by decide)⟩

/-- A Python numeric argument; `isinstance(x, int)` distinguishes the
two constructors. -/
inductive PyNum where
  | int (n : Int)
  | float (q : ℚ)
deriving Repr, DecidableEq

/-- `isinstance(x, int)`. -/
def PyNum.isInstInt : PyNum → Bool
  | .int _ => true
  | .float _ => false

/-- `x > 0` on a Python numeric value. -/
def PyNum.gtZero : PyNum → Bool
  | .int n => decide (0 < n)
  | .float q => decide (0 < q)

/-- The `ToHistory` named tuple of `pyswarms/base/base.py`. -/
structure ToHistory where
  best_cost : ℚ
  mean_pbest_cost : ℚ
  mean_neighbor_cost : ℚ
  position : List (List ℚ)
  velocity : List (List ℚ)
deriving Repr, DecidableEq

/-- The attribute state of a `BaseSwarmOptimizer` instance
(`pyswarms/base/base.py`). -/
structure BaseSwarmOptimizer where
  n_particles : Nat
  dimensions : Nat
  velocity_clamp : Option (ℚ × ℚ)
  swarm_size : Nat × Nat
  options : Options
  init_pos : Option (List (List ℚ))
  ftol : ℚ
  ftol_iter : PyNum
  cost_history : List ℚ
  mean_pbest_history : List ℚ
  mean_neighbor_history : List ℚ
  pos_history : List (List (List ℚ))
  velocity_history : List (List (List ℚ))
  swarm : Swarm

/-- `BaseSwarmOptimizer.reset`: reinitialise the five history lists to
empty and call the subclass `_init_swarm`; the latter is abstract in
base.py, so the swarm it builds is passed in as `init_swarm`. -/
def BaseSwarmOptimizer.reset (o : BaseSwarmOptimizer) (init_swarm : Swarm) :
    BaseSwarmOptimizer :=
  { o with
    cost_history := [], mean_pbest_history := [], mean_neighbor_history := [],
    pos_history := [], velocity_history := [], swarm := init_swarm }

/-- The `BaseSwarmOptimizer` constructor: store the primary attributes,
`assert ftol_iter > 0 and isinstance(ftol_iter, int)` (an `AssertionError`
carrying the message below when it fails), store `ftol_iter`, then
`self.reset()`. -/
def BaseSwarmOptimizer.init (n_particles dimensions : Nat) (options : Options)
    (velocity_clamp : Option (ℚ × ℚ)) (init_pos : Option (List (List ℚ)))
    (ftol : ℚ) (ftol_iter : PyNum) (init_swarm : Swarm) :
    Except String BaseSwarmOptimizer :=
  if ftol_iter.gtZero && ftol_iter.isInstInt then
    Except.ok (BaseSwarmOptimizer.reset
      { n_particles := n_particles, dimensions := dimensions,
        velocity_clamp := velocity_clamp,
        swarm_size := (n_particles, dimensions),
        options := options, init_pos := init_pos, ftol := ftol,
        ftol_iter := ftol_iter,
        cost_history := [], mean_pbest_history := [],
        mean_neighbor_history := [], pos_history := [],
        velocity_history := [], swarm := init_swarm } init_swarm)
  else
    Except.error "ftol_iter expects an integer value greater than 0"

/-- `BaseSwarmOptimizer._populate_history`: append one entry to each of
the five history lists. -/
def BaseSwarmOptimizer.populate_history (o : BaseSwarmOptimizer)
    (hist : ToHistory) : BaseSwarmOptimizer :=
  { o with
    cost_history := o.cost_history ++ [hist.best_cost],
    mean_pbest_history := o.mean_pbest_history ++ [hist.mean_pbest_cost],
    mean_neighbor_history := o.mean_neighbor_history ++ [hist.mean_neighbor_cost],
    pos_history := o.pos_history ++ [hist.position],
    velocity_history := o.velocity_history ++ [hist.velocity] }

/-- A concrete optimizer instance with one completed iteration in its
histories, used to instantiate hypotheses below. -/
def exOpt : BaseSwarmOptimizer where
  n_particles := 2
  dimensions := 2
  velocity_clamp := none
  swarm_size := (2, 2)
  options := ⟨1, 1, 1⟩
  init_pos := none
  ftol := 0
  ftol_iter := .int 1
  cost_history := [1]
  mean_pbest_history := [2]
  mean_neighbor_history := [3]
  pos_history := [[[1, 1], [2, 2]]]
  velocity_history := [[[0, 0], [0, 0]]]
  swarm := exSwarm

/-- A concrete history record. -/
def exHist : ToHistory := ⟨10, 11, 12, [[1, 2], [3, 4]], [[5, 6], [7, 8]]⟩

/-- C6: constructing with `ftol_iter ≤ 0` or with a non-integer value
fails with the assertion error, yielding no instance; a positive integer
`ftol_iter` is accepted and stored unchanged. -/
theorem ftol_iter_validation (n_particles dimensions : Nat) (options : Options)
    (velocity_clamp : Option (ℚ × ℚ)) (init_pos : Option (List (List ℚ)))
    (ftol : ℚ) (sw : Swarm) :
    (∀ n : Int, n ≤ 0 →
      BaseSwarmOptimizer.init n_particles dimensions options velocity_clamp
        init_pos ftol (.int n) sw =
        Except.error "ftol_iter expects an integer value greater than 0") ∧
    (∀ q : ℚ,
      BaseSwarmOptimizer.init n_particles dimensions options velocity_clamp
        init_pos ftol (.float q) sw =
        Except.error "ftol_iter expects an integer value greater than 0") ∧
    (∀ n : Int, 0 < n → ∃ o : BaseSwarmOptimizer,
      BaseSwarmOptimizer.init n_particles dimensions options velocity_clamp
        init_pos ftol (.int n) sw = Except.ok o ∧ o.ftol_iter = .int n) := by
  refine ⟨?_, ?_, ?_⟩
  · intro n hn
    have hng : ¬ (0 : Int) < n := not_lt.mpr hn
    simp [BaseSwarmOptimizer.init, PyNum.gtZero, PyNum.isInstInt, hng]
  · intro q
    simp [BaseSwarmOptimizer.init, PyNum.isInstInt]
  · intro n hn
    have hcond : ((PyNum.int n).gtZero && (PyNum.int n).isInstInt) = true := by
      simp [PyNum.gtZero, PyNum.isInstInt]
      exact hn
    simp only [BaseSwarmOptimizer.init, hcond, if_true]
    exact ⟨_, rfl, rfl⟩

/-- C6 witness: a negative integer and a non-integer value are rejected;
`ftol_iter = 3` is accepted and stored. -/
theorem ftol_iter_validation_witness :
    (BaseSwarmOptimizer.init 2 2 ⟨1, 1, 1⟩ none none 0 (.int (-1)) exSwarm =
      Except.error "ftol_iter expects an integer value greater than 0") ∧
    (BaseSwarmOptimizer.init 2 2 ⟨1, 1, 1⟩ none none 0 (.float (1/2)) exSwarm =
      Except.error "ftol_iter expects an integer value greater than 0") ∧
    (∃ o : BaseSwarmOptimizer,
      BaseSwarmOptimizer.init 2 2 ⟨1, 1, 1⟩ none none 0 (.int 3) exSwarm =
        Except.ok o ∧ o.ftol_iter = .int 3) := by
  have h := ftol_iter_validation 2 2 ⟨1, 1, 1⟩ none none 0 exSwarm
  exact ⟨h.1 (-1) (by decide), h.2.1 (1/2), h.2.2 3 (by decide)⟩

/-- C7: after `reset` the five history sequences are empty while every
configured hyperparameter keeps its pre-reset value. -/
theorem reset_clears_history_preserves_config (o : BaseSwarmOptimizer) (sw : Swarm) :
    (o.reset sw).cost_history = [] ∧
    (o.reset sw).mean_pbest_history = [] ∧
    (o.reset sw).mean_neighbor_history = [] ∧
    (o.reset sw).pos_history = [] ∧
    (o.reset sw).velocity_history = [] ∧
    (o.reset sw).n_particles = o.n_particles ∧
    (o.reset sw).dimensions = o.dimensions ∧
    (o.reset sw).swarm_size = o.swarm_size ∧
    (o.reset sw).options = o.options ∧
    (o.reset sw).velocity_clamp = o.velocity_clamp ∧
    (o.reset sw).init_pos = o.init_pos ∧
    (o.reset sw).ftol = o.ftol ∧
    (o.reset sw).ftol_iter = o.ftol_iter :=
  ⟨rfl, rfl, rfl, rfl, rfl, rfl, rfl, rfl, rfl, rfl, rfl, rfl, rfl⟩

/-- C8: `_populate_history` appends exactly one entry to each of the
five history lists: each length grows by one, the new last element is
the matching field of the record, and every previously stored entry is
unchanged. -/
theorem populate_history_appends (o : BaseSwarmOptimizer) (h : ToHistory) :
    ((o.populate_history h).cost_history.length = o.cost_history.length + 1 ∧
     (o.populate_history h).mean_pbest_history.length =
       o.mean_pbest_history.length + 1 ∧
     (o.populate_history h).mean_neighbor_history.length =
       o.mean_neighbor_history.length + 1 ∧
     (o.populate_history h).pos_history.length = o.pos_history.length + 1 ∧
     (o.populate_history h).velocity_history.length =
       o.velocity_history.length + 1) ∧
    ((o.populate_history h).cost_history.getLast? = some h.best_cost ∧
     (o.populate_history h).mean_pbest_history.getLast? = some h.mean_pbest_cost ∧
     (o.populate_history h).mean_neighbor_history.getLast? =
       some h.mean_neighbor_cost ∧
     (o.populate_history h).pos_history.getLast? = some h.position ∧
     (o.populate_history h).velocity_history.getLast? = some h.velocity) ∧
    ((∀ i, i < o.cost_history.length →
        (o.populate_history h).cost_history.get? i = o.cost_history.get? i) ∧
     (∀ i, i < o.mean_pbest_history.length →
        (o.populate_history h).mean_pbest_history.get? i =
          o.mean_pbest_history.get? i) ∧
     (∀ i, i < o.mean_neighbor_history.length →
        (o.populate_history h).mean_neighbor_history.get? i =
          o.mean_neighbor_history.get? i) ∧
     (∀ i, i < o.pos_history.length →
        (o.populate_history h).pos_history.get? i = o.pos_history.get? i) ∧
     (∀ i, i < o.velocity_history.length →
        (o.populate_history h).velocity_history.get? i =
          o.velocity_history.get? i)) := by
  refine ⟨⟨?_, ?_, ?_, ?_, ?_⟩, ⟨?_, ?_, ?_, ?_, ?_⟩, ?_, ?_, ?_, ?_, ?_⟩ <;>
    first
      | (intro i hi; exact List.get?_append hi)
      | simp [BaseSwarmOptimizer.populate_history]

/-- C8 witness: the theorem instantiated on a concrete optimizer with a
one-entry history and a concrete record. -/
theorem populate_history_appends_witness :
    (exOpt.populate_history exHist).cost_history.length =
      exOpt.cost_history.length + 1 ∧
    (exOpt.populate_history exHist).velocity_history.getLast? =
      some exHist.velocity ∧
    (exOpt.populate_history exHist).cost_history.get? 0 =
      exOpt.cost_history.get? 0 := by
  have h := populate_history_appends exOpt exHist
  exact ⟨h.1.1, h.2.1.2.2.2.2, h.2.2.1 0 (by decide)⟩

end Pyswarms
